import Mathlib

/-!
Verification development for the ChatApp repository (src/app/(tabs)/index.tsx).

The file embeds the three non-UI subsystems of the source:
  * the streaming response engine `streamGeminiResponse` (lines 265-316),
    including its incremental regex scan over each growth of `responseText`
    and the JSON string-escape decoding of matched `"text":"..."` payloads;
  * the session store operations `createNewChat` / `deleteSession`
    (lines 370-394) and the persistence truncation `saveHistory`
    (lines 241-254);
  * the conversation controller `handleSendMessage` (lines 321-367).

All definitions are executable translations of the TypeScript source.
-/

namespace ChatApp

/-! ## Characters and helpers

`isJsWs` models the JavaScript `\s` character class (restricted to the
whitespace characters that can actually occur here) and the character set
stripped by `String.prototype.trim`. -/

def isJsWs (c : Char) : Bool :=
  c == ' ' || c == '\t' || c == '\n' || c == '\r' ||
  c == Char.ofNat 11 || c == Char.ofNat 12 || c == Char.ofNat 160

/-- Strip a literal character sequence from the front of `s`. -/
def stripLit : List Char → List Char → Option (List Char)
  | [], s => some s
  | _ :: _, [] => none
  | l :: ls, c :: cs => if c = l then stripLit ls cs else none

/-! ## The incremental regex scan

The source applies `/"text"\s*:\s*"((?:\\"|[^"])*)"/g` to the newly
arrived suffix of `xhr.responseText` on every progress event (lines
286-295).  `matchValue` models the backtracking match of the capture
group `((?:\\"|[^"])*)` followed by the closing quote: the greedy star
first tries to consume one more unit (the alternative `\\"` before
`[^"]`), and only closes on a quote when no longer continuation
succeeds. -/

def matchValue : List Char → Option (List Char × List Char)
  | [] => none
  | '"' :: rest => some ([], rest)
  | '\\' :: '"' :: rest =>
    match matchValue rest with
    | some (v, r) => some ('\\' :: '"' :: v, r)
    | none => some (['\\'], rest)
  | c :: rest =>
    match matchValue rest with
    | some (v, r) => some (c :: v, r)
    | none => none

/-- The literal `"text"` that opens every match of the regex. -/
def textLit : List Char := ['"', 't', 'e', 'x', 't', '"']

/-- Attempt the whole regex at the start of `s`: the literal `"text"`,
optional whitespace, `:`, optional whitespace, the opening quote, then
the captured value and its closing quote.  Returns the capture and the
remainder of `s` after the match. -/
def matchAt (s : List Char) : Option (List Char × List Char) :=
  match stripLit textLit s with
  | none => none
  | some s1 =>
    match s1.dropWhile isJsWs with
    | ':' :: s3 =>
      match s3.dropWhile isJsWs with
      | '"' :: s5 => matchValue s5
      | _ => none
    | _ => none

/-- One pass of `regex.exec` in a loop over a single growth: find the
leftmost match, emit its capture, continue after the match; on failure
advance one character.  The fuel argument bounds the recursion; since
every step consumes at least one character, `fuel = s.length` computes
the full scan (see `scanChunks`). -/
def scanChunksF : Nat → List Char → List (List Char)
  | 0, _ => []
  | _ + 1, [] => []
  | fuel + 1, c :: rest =>
    match matchAt (c :: rest) with
    | some (v, r) => v :: scanChunksF fuel r
    | none => scanChunksF fuel rest

/-- All captures of the global regex over one growth, left to right. -/
def scanChunks (s : List Char) : List (List Char) :=
  scanChunksF s.length s

/-! ## JSON string decoding

The source decodes each capture with ``JSON.parse(`"${match[1]}"`)`` and
falls back to the raw capture when that throws (lines 289-294).
`jsonDecodeString` models JSON.parse applied to the quoted capture:
standard escapes, `\uXXXX` (surrogate pairs combined; a lone surrogate
is mapped to U+FFFD, since a JavaScript string may hold the lone code
unit but a `Char` cannot), failure on a raw quote (the literal would
terminate early and leave trailing input), on a raw control character,
and on a malformed or truncated escape. -/

def hexDigit (c : Char) : Option Nat :=
  if '0' ≤ c ∧ c ≤ '9' then some (c.toNat - '0'.toNat)
  else if 'a' ≤ c ∧ c ≤ 'f' then some (c.toNat - 'a'.toNat + 10)
  else if 'A' ≤ c ∧ c ≤ 'F' then some (c.toNat - 'A'.toNat + 10)
  else none

/-- Decode one escape sequence (the input starts just after a
backslash); returns the decoded character and the remaining input, or
`none` for a malformed escape.  A `\uXXXX` high surrogate combines with
an immediately following `\uXXXX` low surrogate into one scalar; a lone
surrogate becomes U+FFFD (a JavaScript string would keep the lone code
unit, which a `Char` cannot represent). -/
def jsonEscape : List Char → Option (Char × List Char)
  | [] => none
  | e :: rest2 =>
    if e = '"' then some ('"', rest2)
    else if e = '\\' then some ('\\', rest2)
    else if e = '/' then some ('/', rest2)
    else if e = 'b' then some (Char.ofNat 8, rest2)
    else if e = 'f' then some (Char.ofNat 12, rest2)
    else if e = 'n' then some ('\n', rest2)
    else if e = 'r' then some (Char.ofNat 13, rest2)
    else if e = 't' then some ('\t', rest2)
    else if e = 'u' then
      match rest2 with
      | a :: b :: c2 :: d :: rest3 =>
        match hexDigit a, hexDigit b, hexDigit c2, hexDigit d with
        | some ha, some hb, some hc, some hd =>
          let code := ha * 4096 + hb * 256 + hc * 16 + hd
          if 0xD800 ≤ code ∧ code ≤ 0xDBFF then
            match rest3 with
            | '\\' :: 'u' :: a2 :: b2 :: c3 :: d2 :: rest4 =>
              match hexDigit a2, hexDigit b2, hexDigit c3, hexDigit d2 with
              | some he, some hf, some hg, some hh =>
                let code2 := he * 4096 + hf * 256 + hg * 16 + hh
                if 0xDC00 ≤ code2 ∧ code2 ≤ 0xDFFF then
                  some (Char.ofNat (0x10000 + (code - 0xD800) * 1024 + (code2 - 0xDC00)), rest4)
                else some (Char.ofNat 0xFFFD, rest3)
              | _, _, _, _ => some (Char.ofNat 0xFFFD, rest3)
            | _ => some (Char.ofNat 0xFFFD, rest3)
          else if 0xDC00 ≤ code ∧ code ≤ 0xDFFF then some (Char.ofNat 0xFFFD, rest3)
          else some (Char.ofNat code, rest3)
        | _, _, _, _ => none
      | _ => none
    else none

def jsonDecodeStringF : Nat → List Char → Option (List Char)
  | _, [] => some []
  | 0, _ :: _ => none
  | fuel + 1, c :: rest =>
    if c = '"' then none
    else if c = '\\' then
      match jsonEscape rest with
      | none => none
      | some (d, rest2) => (d :: ·) <$> jsonDecodeStringF fuel rest2
    else if c.toNat < 0x20 then none
    else (c :: ·) <$> jsonDecodeStringF fuel rest

/-- Every step of `jsonDecodeStringF` consumes at least one character,
so length-many units of fuel compute the full decode. -/
def jsonDecodeString (s : List Char) : Option (List Char) :=
  jsonDecodeStringF s.length s

/-- `try { JSON.parse(`"${m}"`) } catch { m }` at the character level. -/
def decodeChunk (v : List Char) : List Char :=
  (jsonDecodeString v).getD v

/-- All strings passed to `onChunk` for one growth of the response text. -/
def processGrowthL (g : List Char) : List (List Char) :=
  (scanChunks g).map decodeChunk

/-- Feeding a sequence of growths: since `lastResponseLength` is set to
the full current length on every progress event (line 284), each growth
is scanned exactly once, in isolation.  `emittedJoin` is the
concatenation of every string passed to `onChunk` over the whole
exchange. -/
def emittedJoin (growths : List (List Char)) : List Char :=
  ((growths.map processGrowthL).flatten).flatten

/-- The eight characters `"text":"` that open a text field with no
whitespace around the colon. -/
def openField : List Char := ['"', 't', 'e', 'x', 't', '"', ':', '"']

/-- A character that the regex value class `[^"]` accepts, that JSON
string decoding passes through unchanged, and that is legal unescaped
inside a JSON string: not a quote, not a backslash, not a control
character. -/
def plainChar (c : Char) : Bool :=
  decide (c ≠ '"') && decide (c ≠ '\\') && decide (0x20 ≤ c.toNat)

/-! ## The streaming response engine (lines 265-316)

`streamGeminiResponse` opens an `XMLHttpRequest` and settles its promise
from the transport's events.  We model the transport's behaviour in one
exchange as a `TransportOutcome`: either the exchange completes
(`onloadend` fires with a final status after the body arrived in a
sequence of growths), or it fails at the network level (`onerror` fires
after whatever growths arrived; `onloadend` then also fires with the
same failure status, but its second `reject` of the already-rejected
promise has no effect).  `EngineResult` records everything observable:
the strings passed to `onChunk` in order, whether the promise resolved,
and whether a network request was sent at all. -/

/-- One growth event carries the newly appended suffix of
`xhr.responseText` (the engine re-reads only this suffix because
`lastResponseLength` is advanced to the full length on every event). -/
inductive TransportOutcome where
  | completed (status : Nat) (growths : List String)
  | networkError (status : Nat) (growths : List String)
deriving DecidableEq

structure EngineResult where
  chunks : List String
  resolved : Bool
  networkUsed : Bool
deriving DecidableEq

/-- The strings passed to `onChunk` while a growth's suffix is scanned. -/
def processGrowth (g : String) : List String :=
  (processGrowthL g.data).map fun l => String.mk l

/-- All `onChunk` strings produced by the scans of a growth sequence. -/
def feedGrowths (growths : List String) : List String :=
  (growths.map processGrowth).flatten

def apiKeyErrorMsg : String :=
  "Error: API Key is not configured. Please check your .env file."

def networkErrorMsg (status : Nat) : String :=
  "\n\n**Error:** Network request failed. Status: " ++ toString status

/-- `!GEMINI_API_KEY` — JavaScript falsiness of the configured key:
absent, or present but the empty string. -/
def jsFalsyKey : Option String → Bool
  | none => true
  | some s => s == ""

/-- The engine, lines 265-316: missing key short-circuits with one error
chunk and a rejection before any request is sent; otherwise the body's
growths are scanned as they arrive, `onloadend` resolves exactly on a
2xx final status and rejects otherwise (without emitting anything), and
`onerror` emits one error chunk and rejects. -/
def streamGeminiResponse (apiKey : Option String) (outcome : TransportOutcome) : EngineResult :=
  if jsFalsyKey apiKey then
    { chunks := [apiKeyErrorMsg], resolved := false, networkUsed := false }
  else
    match outcome with
    | .completed status growths =>
      { chunks := feedGrowths growths
        resolved := decide (200 ≤ status) && decide (status < 300)
        networkUsed := true }
    | .networkError status growths =>
      { chunks := feedGrowths growths ++ [networkErrorMsg status]
        resolved := false
        networkUsed := true }

/-! ## Data model and session store (lines 40-49, 217-254, 370-394) -/

structure Message where
  id : String
  text : String
  isFromUser : Bool
deriving DecidableEq

structure ChatSession where
  id : String
  messages : List Message
deriving DecidableEq

/-- The pieces of component state the store operations touch. -/
structure StoreState where
  sessions : List ChatSession
  activeSessionId : Option String
deriving DecidableEq

/-- `createNewChat` (lines 370-375).  `now` is the value `Date.now()`
returns at this call; the new session's id is its decimal rendering. -/
def createNewChat (now : Nat) (st : StoreState) : StoreState :=
  { sessions := { id := toString now, messages := [] } :: st.sessions
    activeSessionId := some (toString now) }

/-- `deleteSession` (lines 382-394).  `now` is the value `Date.now()`
returns if the fallback session has to be synthesized. -/
def deleteSession (now : Nat) (sessionId : String) (st : StoreState) : StoreState :=
  let newSessions := st.sessions.filter fun s => s.id != sessionId
  if st.activeSessionId = some sessionId then
    match newSessions with
    | [] =>
      { sessions := [{ id := toString now, messages := [] }]
        activeSessionId := some (toString now) }
    | s :: rest => { sessions := s :: rest, activeSessionId := some s.id }
  else
    { sessions := newSessions, activeSessionId := st.activeSessionId }

/-- A sequence of store operations, each carrying the `Date.now()` value
observed when it runs. -/
inductive StoreOp where
  | create (now : Nat)
  | delete (now : Nat) (sessionId : String)
deriving DecidableEq

def applyOp : StoreOp → StoreState → StoreState
  | .create now, st => createNewChat now st
  | .delete now sid, st => deleteSession now sid st

def runOps (ops : List StoreOp) (st : StoreState) : StoreState :=
  ops.foldl (fun s op => applyOp op s) st

/-- The lifecycle invariant: the collection is non-empty and the active
id refers to a session in the collection. -/
def storeInvariant (st : StoreState) : Prop :=
  st.sessions ≠ [] ∧ ∃ s ∈ st.sessions, st.activeSessionId = some s.id

instance (st : StoreState) : Decidable (storeInvariant st) := by
  unfold storeInvariant; infer_instance

def sessionIds (st : StoreState) : List String :=
  st.sessions.map fun s => s.id

/-- `saveHistory` (lines 241-254): nothing is written for an empty
collection; otherwise the persisted value is `sessions.slice(0,
MAX_HISTORY_LENGTH)`.  The result is the written list, `none` when no
write happens. -/
def MAX_HISTORY_LENGTH : Nat := 100

def saveHistory (sessions : List ChatSession) : Option (List ChatSession) :=
  if sessions.isEmpty then none
  else some (sessions.take MAX_HISTORY_LENGTH)

/-! ## The conversation controller (lines 318-367) -/

def CONTEXT_WINDOW_SIZE : Nat := 10

inductive Role where
  | user
  | model
deriving DecidableEq

/-- `GeminiContent`: a role-tagged list of text parts. -/
structure GeminiContent where
  role : Role
  parts : List String
deriving DecidableEq

/-- The state `handleSendMessage` reads and writes. -/
structure ChatState where
  sessions : List ChatSession
  activeSessionId : Option String
  inputText : String
  isLoading : Bool
deriving DecidableEq

/-- `sessions.find(s => s.id === activeSessionId)` (line 318). -/
def activeSession (st : ChatState) : Option ChatSession :=
  match st.activeSessionId with
  | none => none
  | some id => st.sessions.find? fun s => s.id == id

/-- `String.prototype.trim`. -/
def jsTrim (t : String) : String :=
  String.mk (((t.data.dropWhile isJsWs).reverse.dropWhile isJsWs).reverse)

/-- `!activeSessionId` — falsiness of the active id. -/
def jsFalsyId : Option String → Bool
  | none => true
  | some s => s == ""

/-- `array.slice(-n)`: the trailing window of at most `n` elements. -/
def jsSliceLast (n : Nat) {α : Type} (xs : List α) : List α :=
  xs.drop (xs.length - n)

/-- The fixed instruction template wrapped around the raw input
(line 332). -/
def fullPrompt (input : String) : String :=
  "Please format your response in Markdown. Here is my question: " ++ input

/-- Lines 327-336: map the trailing context window to role-tagged
entries and append the wrapped user turn. -/
def buildHistory (messages : List Message) (input : String) : List GeminiContent :=
  let recentMessages := jsSliceLast CONTEXT_WINDOW_SIZE messages
  (recentMessages.map fun msg =>
    { role := if msg.isFromUser then Role.user else Role.model
      parts := [msg.text] })
  ++ [{ role := Role.user, parts := [fullPrompt input] }]

/-- The new user message, id `Date.now().toString()` (line 324). -/
def userMessage (now : Nat) (input : String) : Message :=
  { id := toString now, text := input, isFromUser := true }

/-- The empty assistant placeholder, id `(Date.now() + 1).toString()`
(line 325). -/
def aiMessagePlaceholder (now : Nat) : Message :=
  { id := toString (now + 1), text := "", isFromUser := false }

/-- Lines 338-342: append the user message and the placeholder, as a
pair in that order, to the session whose id is the active id. -/
def appendPair (now : Nat) (input : String) (activeId : Option String)
    (sessions : List ChatSession) : List ChatSession :=
  sessions.map fun session =>
    if some session.id = activeId then
      { session with
          messages := session.messages ++ [userMessage now input, aiMessagePlaceholder now] }
    else session

/-- Lines 347-358, the `onChunk` fold: replace the target session's last
message by a copy whose text has the chunk appended; sessions with a
different id, and a target session with no messages, are untouched. -/
def foldChunkSessions (activeId : Option String) (chunk : String)
    (sessions : List ChatSession) : List ChatSession :=
  sessions.map fun session =>
    if some session.id = activeId then
      match session.messages.getLast? with
      | none => session
      | some lastMessage =>
        { session with
            messages := session.messages.dropLast ++
              [{ lastMessage with text := lastMessage.text ++ chunk }] }
    else session

/-- The observable outcome of one `handleSendMessage` call. -/
structure SendResult where
  state : ChatState
  engineInvoked : Bool
  sentHistory : List GeminiContent
deriving DecidableEq

/-- `handleSendMessage` (lines 321-367), the whole send operation run to
completion: the guard (line 322), context building, the atomic append of
the user/placeholder pair, the engine call with its per-chunk folds, and
the final `setIsLoading(false)`.  `now` is `Date.now()` at the call. -/
def handleSendMessage (now : Nat) (apiKey : Option String)
    (outcome : TransportOutcome) (st : ChatState) : SendResult :=
  if jsTrim st.inputText = "" ∨ st.isLoading ∨ jsFalsyId st.activeSessionId then
    { state := st, engineInvoked := false, sentHistory := [] }
  else
    match activeSession st with
    | none => { state := st, engineInvoked := false, sentHistory := [] }
    | some sess =>
      let history := buildHistory sess.messages st.inputText
      let sessions1 := appendPair now st.inputText st.activeSessionId st.sessions
      let engineResult := streamGeminiResponse apiKey outcome
      let sessions2 := engineResult.chunks.foldl
        (fun ss chunk => foldChunkSessions st.activeSessionId chunk ss) sessions1
      { state :=
          { sessions := sessions2
            activeSessionId := st.activeSessionId
            inputText := ""
            isLoading := false }
        engineInvoked := true
        sentHistory := history }

/-! ## Claims about the engine's completion behaviour (C2, C3) -/

/-- Claim C2, corrected.  The promise resolves exactly on a completed
exchange with a 2xx final status.  On a network error the engine emits
exactly one trailing human-readable error chunk through `onChunk` before
rejecting; on a completed exchange with a non-2xx status it rejects
without emitting any error chunk. -/
theorem resolves_iff_2xx_error_chunk_on_network_error (apiKey : Option String)
    (hk : jsFalsyKey apiKey = false) (status : Nat) (growths : List String) :
    ((streamGeminiResponse apiKey (.completed status growths)).resolved = true ↔
      (200 ≤ status ∧ status < 300)) ∧
    (streamGeminiResponse apiKey (.completed status growths)).chunks = feedGrowths growths ∧
    (streamGeminiResponse apiKey (.networkError status growths)).resolved = false ∧
    (streamGeminiResponse apiKey (.networkError status growths)).chunks =
      feedGrowths growths ++ [networkErrorMsg status] := by
  simp [streamGeminiResponse, hk]

theorem resolves_iff_2xx_witness :
    jsFalsyKey (some "k") = false ∧
    (((streamGeminiResponse (some "k") (.completed 404 [])).resolved = true ↔
      (200 ≤ 404 ∧ 404 < 300)) ∧
    (streamGeminiResponse (some "k") (.completed 404 [])).chunks = feedGrowths [] ∧
    (streamGeminiResponse (some "k") (.networkError 404 [])).resolved = false ∧
    (streamGeminiResponse (some "k") (.networkError 404 [])).chunks =
      feedGrowths [] ++ [networkErrorMsg 404]) :=
  ⟨by decide, resolves_iff_2xx_error_chunk_on_network_error (some "k") (by decide) 404 []⟩

/-- Counterexample to claim C2 as stated: a completed exchange with
final status 404 is a failure case (the promise rejects), yet the engine
passes nothing to `onChunk` — `xhr.onloadend` (lines 298-305) rejects
without emitting, only `xhr.onerror` emits. -/
theorem non2xx_rejects_without_error_chunk :
    (streamGeminiResponse (some "key") (.completed 404 ["\"text\":\"hi\""])).resolved = false ∧
    (streamGeminiResponse (some "key") (.completed 404 ["\"text\":\"hi\""])).chunks = ["hi"] := by
  decide

/-- Claim C3.  With a falsy (missing or empty) API key every invocation
emits exactly one explanatory error chunk, rejects, and issues no
network request (lines 267-272). -/
theorem missing_key_single_error_no_network (apiKey : Option String)
    (outcome : TransportOutcome) (h : jsFalsyKey apiKey = true) :
    streamGeminiResponse apiKey outcome =
      { chunks := [apiKeyErrorMsg], resolved := false, networkUsed := false } := by
  simp [streamGeminiResponse, h]

theorem missing_key_witness :
    jsFalsyKey none = true ∧
    streamGeminiResponse none (.completed 200 ["\"text\":\"hi\""]) =
      { chunks := [apiKeyErrorMsg], resolved := false, networkUsed := false } :=
  ⟨by decide,
    missing_key_single_error_no_network none (.completed 200 ["\"text\":\"hi\""]) (by decide)⟩

/-! ## Claim C8: persistence truncation -/

/-- Claim C8.  `saveHistory` writes `sessions.slice(0,
MAX_HISTORY_LENGTH)`: at most `MAX_HISTORY_LENGTH` sessions, exactly the
front of the ordered sequence (pointwise equal to the originals),
silently dropping the rest. -/
theorem saveHistory_truncates_to_front (sessions : List ChatSession)
    (h : sessions ≠ []) :
    saveHistory sessions = some (sessions.take MAX_HISTORY_LENGTH) ∧
    (sessions.take MAX_HISTORY_LENGTH).length = min MAX_HISTORY_LENGTH sessions.length ∧
    ∀ i, i < MAX_HISTORY_LENGTH →
      (sessions.take MAX_HISTORY_LENGTH)[i]? = sessions[i]? := by
  refine ⟨?_, ?_, ?_⟩
  · simp [saveHistory, h]
  · simp [List.length_take]
  · intro i hi
    exact List.getElem?_take_of_lt hi

theorem saveHistory_truncates_witness :
    (List.replicate 150 ({ id := "s", messages := [] } : ChatSession)) ≠ [] ∧
    (saveHistory (List.replicate 150 ({ id := "s", messages := [] } : ChatSession)) =
      some ((List.replicate 150 ({ id := "s", messages := [] } : ChatSession)).take
        MAX_HISTORY_LENGTH) ∧
    ((List.replicate 150 ({ id := "s", messages := [] } : ChatSession)).take
        MAX_HISTORY_LENGTH).length =
      min MAX_HISTORY_LENGTH (List.replicate 150
        ({ id := "s", messages := [] } : ChatSession)).length ∧
    ∀ i, i < MAX_HISTORY_LENGTH →
      ((List.replicate 150 ({ id := "s", messages := [] } : ChatSession)).take
        MAX_HISTORY_LENGTH)[i]? =
      (List.replicate 150 ({ id := "s", messages := [] } : ChatSession))[i]?) :=
  ⟨by decide,
    saveHistory_truncates_to_front
      (List.replicate 150 ({ id := "s", messages := [] } : ChatSession)) (by decide)⟩

/-! ## Claims about the session store (C4, C5, C9) -/

lemma applyOp_invariant (op : StoreOp) (st : StoreState) (h : storeInvariant st) :
    storeInvariant (applyOp op st) := by
  obtain ⟨hne, s0, hmem, hid⟩ := h
  cases op with
  | create now =>
    exact ⟨by simp [applyOp, createNewChat],
      ⟨{ id := toString now, messages := [] },
        by simp [applyOp, createNewChat], by simp [applyOp, createNewChat]⟩⟩
  | delete now sid =>
    by_cases ha : st.activeSessionId = some sid
    · cases hns : st.sessions.filter (fun s => s.id != sid) with
      | nil =>
        refine ⟨?_, ⟨{ id := toString now, messages := [] }, ?_, ?_⟩⟩ <;>
          simp [applyOp, deleteSession, ha, hns]
      | cons s rest =>
        refine ⟨?_, ⟨s, ?_, ?_⟩⟩ <;> simp [applyOp, deleteSession, ha, hns]
    · have hsid : s0.id ≠ sid := by
        intro hEq
        exact ha (by rw [hid, hEq])
      have hmem2 : s0 ∈ st.sessions.filter (fun s => s.id != sid) := by
        rw [List.mem_filter]
        exact ⟨hmem, by simp [hsid]⟩
      have hres : applyOp (.delete now sid) st =
          { sessions := st.sessions.filter (fun s => s.id != sid)
            activeSessionId := st.activeSessionId } := by
        simp [applyOp, deleteSession, ha]
      rw [hres]
      exact ⟨List.ne_nil_of_mem hmem2, s0, hmem2, hid⟩

/-- Claim C4.  Once the invariant holds (as it does when initialization
completes), every sequence of `createNewChat` / `deleteSession`
operations preserves it: the collection stays non-empty and the active
id always refers to a session in the collection. -/
theorem store_ops_preserve_invariant (ops : List StoreOp) (st : StoreState)
    (h : storeInvariant st) : storeInvariant (runOps ops st) := by
  induction ops generalizing st with
  | nil => exact h
  | cons op ops ih => exact ih (applyOp op st) (applyOp_invariant op st h)

theorem store_ops_invariant_witness :
    storeInvariant (⟨[⟨"1", []⟩], some "1"⟩ : StoreState) ∧
    storeInvariant (runOps [.create 2, .delete 3 "1", .delete 4 "2"]
      (⟨[⟨"1", []⟩], some "1"⟩ : StoreState)) :=
  ⟨by decide,
    store_ops_preserve_invariant [.create 2, .delete 3 "1", .delete 4 "2"]
      (⟨[⟨"1", []⟩], some "1"⟩ : StoreState) (by decide)⟩

/-- Claim C5.  `deleteSession` keeps exactly the sessions whose id
differs (in order); when the deleted session was active it promotes the
front of the remainder, and when nothing remains it synthesizes one
fresh empty session and makes it active — so deleting the active session
when it is the only session leaves exactly one empty active session. -/
theorem deleteSession_spec (now : Nat) (sid : String) (st : StoreState) :
    (st.activeSessionId = some sid →
      st.sessions.filter (fun s => s.id != sid) = [] →
      (deleteSession now sid st).sessions = [{ id := toString now, messages := [] }] ∧
      (deleteSession now sid st).activeSessionId = some (toString now)) ∧
    (st.activeSessionId = some sid →
      ∀ s rest, st.sessions.filter (fun s => s.id != sid) = s :: rest →
        (deleteSession now sid st).sessions = s :: rest ∧
        (deleteSession now sid st).activeSessionId = some s.id) ∧
    (st.activeSessionId ≠ some sid →
      (deleteSession now sid st).sessions = st.sessions.filter (fun s => s.id != sid) ∧
      (deleteSession now sid st).activeSessionId = st.activeSessionId) ∧
    (∀ s, st.sessions = [s] → st.activeSessionId = some s.id → sid = s.id →
      (deleteSession now sid st).sessions = [{ id := toString now, messages := [] }] ∧
      (deleteSession now sid st).activeSessionId = some (toString now)) := by
  refine ⟨fun ha hf => ?_, fun ha s rest hf => ?_, fun ha => ?_, fun s hs ha hsid => ?_⟩
  · constructor <;> simp [deleteSession, ha, hf]
  · constructor <;> simp [deleteSession, ha, hf]
  · constructor <;> simp [deleteSession, ha]
  · subst hsid
    have hf : st.sessions.filter (fun t => t.id != s.id) = [] := by
      rw [hs]
      simp
    constructor <;> simp [deleteSession, ha, hf]

theorem deleteSession_spec_witness :
    ((⟨[⟨"7", []⟩], some "7"⟩ : StoreState)).sessions = [⟨"7", []⟩] ∧
    ((deleteSession 9 "7" (⟨[⟨"7", []⟩], some "7"⟩ : StoreState)).sessions =
        [{ id := toString 9, messages := [] }] ∧
     (deleteSession 9 "7" (⟨[⟨"7", []⟩], some "7"⟩ : StoreState)).activeSessionId =
        some (toString 9)) :=
  ⟨rfl,
    (deleteSession_spec 9 "7" (⟨[⟨"7", []⟩], some "7"⟩ : StoreState)).2.2.2
      ⟨"7", []⟩ rfl rfl rfl⟩

/-- Counterexample to claim C9 as stated: session ids are the
`Date.now()` timestamp rendered in decimal (lines 371, 389), and nothing
prevents a creation from observing the same millisecond as an existing
session — here the new session's id "5" duplicates an id already in the
collection. -/
theorem create_duplicate_id :
    ¬ (sessionIds (createNewChat 5 (⟨[⟨"5", []⟩], some "5"⟩ : StoreState))).Nodup := by
  decide

/-- Claim C9, corrected.  A session created by `createNewChat` carries
the current timestamp as id, so ids stay pairwise distinct only provided
each creation's timestamp differs from every id already in the
collection (e.g. no two creations in the same millisecond);
`deleteSession` (including its synthesized fallback session) always
preserves pairwise-distinct ids. -/
theorem ids_distinct_of_fresh_timestamp (now now2 : Nat) (sid : String)
    (st : StoreState) (h : (sessionIds st).Nodup) :
    (toString now ∉ sessionIds st → (sessionIds (createNewChat now st)).Nodup) ∧
    (sessionIds (deleteSession now2 sid st)).Nodup := by
  constructor
  · intro hfresh
    simpa [sessionIds, createNewChat] using ⟨by simpa [sessionIds] using hfresh, h⟩
  · have hsub : List.Sublist
        ((st.sessions.filter (fun s => s.id != sid)).map (fun s => s.id))
        (st.sessions.map (fun s => s.id)) :=
      List.Sublist.map _ (List.filter_sublist _)
    by_cases ha : st.activeSessionId = some sid
    · cases hns : st.sessions.filter (fun s => s.id != sid) with
      | nil => simp [sessionIds, deleteSession, ha, hns]
      | cons s rest =>
        have : ((s :: rest).map fun s => s.id).Nodup := by
          rw [← hns]
          exact List.Nodup.sublist hsub h
        simpa [sessionIds, deleteSession, ha, hns] using this
    · have : ((st.sessions.filter (fun s => s.id != sid)).map fun s => s.id).Nodup :=
        List.Nodup.sublist hsub h
      simpa [sessionIds, deleteSession, ha] using this

theorem ids_distinct_witness :
    (sessionIds (⟨[⟨"1", []⟩], some "1"⟩ : StoreState)).Nodup ∧
    ((toString 2 ∉ sessionIds (⟨[⟨"1", []⟩], some "1"⟩ : StoreState) →
      (sessionIds (createNewChat 2 (⟨[⟨"1", []⟩], some "1"⟩ : StoreState))).Nodup) ∧
    (sessionIds (deleteSession 3 "1" (⟨[⟨"1", []⟩], some "1"⟩ : StoreState))).Nodup) :=
  ⟨by decide,
    ids_distinct_of_fresh_timestamp 2 3 "1" (⟨[⟨"1", []⟩], some "1"⟩ : StoreState) (by decide)⟩

/-! ## Claims about the conversation controller (C6, C7, C10) -/

/-- Claim C6.  `handleSendMessage` is a complete no-op — state unchanged
and no engine invocation — when the input trims to empty, a send is in
flight, or the active id does not resolve to an existing session
(line 322). -/
theorem sendMessage_guard_noop (now : Nat) (apiKey : Option String)
    (outcome : TransportOutcome) (st : ChatState)
    (h : jsTrim st.inputText = "" ∨ st.isLoading = true ∨ activeSession st = none) :
    handleSendMessage now apiKey outcome st =
      { state := st, engineInvoked := false, sentHistory := [] } := by
  unfold handleSendMessage
  by_cases hg : jsTrim st.inputText = "" ∨ st.isLoading ∨ jsFalsyId st.activeSessionId
  · rw [if_pos hg]
  · rw [if_neg hg]
    rcases h with h | h | h
    · exact absurd (Or.inl h) hg
    · exact absurd (Or.inr (Or.inl h)) hg
    · rw [h]

theorem sendMessage_guard_noop_witness :
    (jsTrim "   " = "" ∨ (false : Bool) = true ∨
      activeSession (⟨[⟨"1", []⟩], some "1", "   ", false⟩ : ChatState) = none) ∧
    handleSendMessage 7 (some "k") (.completed 200 [])
        (⟨[⟨"1", []⟩], some "1", "   ", false⟩ : ChatState) =
      { state := (⟨[⟨"1", []⟩], some "1", "   ", false⟩ : ChatState),
        engineInvoked := false, sentHistory := [] } :=
  ⟨Or.inl (by decide),
    sendMessage_guard_noop 7 (some "k") (.completed 200 [])
      (⟨[⟨"1", []⟩], some "1", "   ", false⟩ : ChatState) (Or.inl (by decide))⟩

lemma activeSession_eq_some (st : ChatState) (sess : ChatSession)
    (h : activeSession st = some sess) :
    st.activeSessionId = some sess.id ∧ sess ∈ st.sessions := by
  cases ha : st.activeSessionId with
  | none => simp [activeSession, ha] at h
  | some id =>
    simp only [activeSession, ha] at h
    have h1 : sess.id = id := by simpa using List.find?_some h
    have h2 : sess ∈ st.sessions := List.mem_of_find?_eq_some h
    exact ⟨by rw [h1], h2⟩


/-- Claim C7.  When the guard passes, the context sent to the engine is
the active session's trailing `CONTEXT_WINDOW_SIZE` messages in
chronological order — `user` role for user messages, `model` otherwise —
followed by one `user` entry wrapping the raw input in the fixed
Markdown instruction template; and the pair appended to the target
session is the raw (unwrapped) user message immediately followed by the
empty assistant placeholder, in that order. -/
theorem sendMessage_context_and_pair (now : Nat) (apiKey : Option String)
    (outcome : TransportOutcome) (st : ChatState) (sess : ChatSession)
    (h1 : jsTrim st.inputText ≠ "") (h2 : st.isLoading = false)
    (h3 : activeSession st = some sess) (h4 : sess.id ≠ "") :
    (handleSendMessage now apiKey outcome st).engineInvoked = true ∧
    (handleSendMessage now apiKey outcome st).sentHistory =
      ((sess.messages.drop (sess.messages.length - CONTEXT_WINDOW_SIZE)).map fun msg =>
        { role := if msg.isFromUser then Role.user else Role.model
          parts := [msg.text] })
      ++ [{ role := Role.user
            parts := ["Please format your response in Markdown. Here is my question: "
              ++ st.inputText] }] ∧
    appendPair now st.inputText st.activeSessionId st.sessions =
      st.sessions.map fun s =>
        if s.id = sess.id then
          { s with messages := s.messages ++
              [{ id := toString now, text := st.inputText, isFromUser := true },
               { id := toString (now + 1), text := "", isFromUser := false }] }
        else s := by
  obtain ⟨hid, _⟩ := activeSession_eq_some st sess h3
  have hfalsy : jsFalsyId st.activeSessionId = false := by
    rw [hid]
    simpa [jsFalsyId] using h4
  have hg : ¬ (jsTrim st.inputText = "" ∨ st.isLoading ∨ jsFalsyId st.activeSessionId) := by
    intro hg
    rcases hg with hg | hg | hg
    · exact h1 hg
    · rw [h2] at hg; cases hg
    · rw [hfalsy] at hg; cases hg
  refine ⟨?_, ?_, ?_⟩
  · simp [handleSendMessage, if_neg hg, h3]
  · simp only [handleSendMessage, if_neg hg, h3]
    rfl
  · rw [hid]
    unfold appendPair userMessage aiMessagePlaceholder
    simp only [Option.some.injEq]

theorem sendMessage_context_witness :
    (jsTrim "hi" ≠ "" ∧ (false : Bool) = false ∧
      activeSession (⟨[⟨"1", [⟨"m1", "q", true⟩, ⟨"m2", "a", false⟩]⟩], some "1", "hi", false⟩ :
        ChatState) = some ⟨"1", [⟨"m1", "q", true⟩, ⟨"m2", "a", false⟩]⟩ ∧
      ("1" : String) ≠ "") ∧
    ((handleSendMessage 5 (some "k") (.completed 200 [])
        (⟨[⟨"1", [⟨"m1", "q", true⟩, ⟨"m2", "a", false⟩]⟩], some "1", "hi", false⟩ :
          ChatState)).engineInvoked = true ∧
     (handleSendMessage 5 (some "k") (.completed 200 [])
        (⟨[⟨"1", [⟨"m1", "q", true⟩, ⟨"m2", "a", false⟩]⟩], some "1", "hi", false⟩ :
          ChatState)).sentHistory =
      ((([⟨"m1", "q", true⟩, ⟨"m2", "a", false⟩] : List Message).drop
          (([⟨"m1", "q", true⟩, ⟨"m2", "a", false⟩] : List Message).length -
            CONTEXT_WINDOW_SIZE)).map
            (fun (msg : Message) =>
          ({ role := if msg.isFromUser then Role.user else Role.model
             parts := [msg.text] } : GeminiContent)))
      ++ [{ role := Role.user
            parts := ["Please format your response in Markdown. Here is my question: "
              ++ "hi"] }] ∧
     appendPair 5 "hi" (some "1") [⟨"1", [⟨"m1", "q", true⟩, ⟨"m2", "a", false⟩]⟩] =
      [⟨"1", [⟨"m1", "q", true⟩, ⟨"m2", "a", false⟩]⟩].map fun s =>
        if s.id = "1" then
          { s with messages := s.messages ++
              [{ id := toString 5, text := "hi", isFromUser := true },
               { id := toString (5 + 1), text := "", isFromUser := false }] }
        else s) :=
  ⟨⟨by decide, rfl, by decide, by decide⟩,
    sendMessage_context_and_pair 5 (some "k") (.completed 200 [])
      (⟨[⟨"1", [⟨"m1", "q", true⟩, ⟨"m2", "a", false⟩]⟩], some "1", "hi", false⟩ : ChatState)
      ⟨"1", [⟨"m1", "q", true⟩, ⟨"m2", "a", false⟩]⟩
      (by decide) rfl (by decide) (by decide)⟩

/-- Claim C10.  The initial append and each per-chunk fold are pointwise
maps over the session collection: a session whose id differs from the
target id is returned unchanged by both, and the fold rewrites only the
target session's final message, appending the chunk to its text while
preserving its id and `isFromUser` flag and all earlier messages. -/
theorem append_and_fold_frame (now : Nat) (input : String) (activeId : Option String)
    (chunk : String) (sessions : List ChatSession) (i : Nat) (s : ChatSession)
    (hs : sessions[i]? = some s) :
    (some s.id ≠ activeId →
      (appendPair now input activeId sessions)[i]? = some s ∧
      (foldChunkSessions activeId chunk sessions)[i]? = some s) ∧
    (some s.id = activeId →
      (appendPair now input activeId sessions)[i]? =
        some { s with messages :=
          s.messages ++ [userMessage now input, aiMessagePlaceholder now] } ∧
      ∀ lastMessage, s.messages.getLast? = some lastMessage →
        (foldChunkSessions activeId chunk sessions)[i]? =
          some { id := s.id
                 messages := s.messages.dropLast ++
                   [{ id := lastMessage.id, text := lastMessage.text ++ chunk,
                      isFromUser := lastMessage.isFromUser }] }) := by
  constructor
  · intro hne
    constructor
    · simp [appendPair, List.getElem?_map, hs, if_neg hne]
    · simp [foldChunkSessions, List.getElem?_map, hs, if_neg hne]
  · intro heq
    constructor
    · simp [appendPair, List.getElem?_map, hs, if_pos heq]
    · intro lastMessage hlast
      simp [foldChunkSessions, List.getElem?_map, hs, if_pos heq, hlast]

theorem append_and_fold_frame_witness :
    ([⟨"1", [⟨"m", "He", false⟩]⟩, ⟨"2", [⟨"x", "y", true⟩]⟩] :
        List ChatSession)[1]? = some ⟨"2", [⟨"x", "y", true⟩]⟩ ∧
    ((appendPair 5 "q" (some "1")
        [⟨"1", [⟨"m", "He", false⟩]⟩, ⟨"2", [⟨"x", "y", true⟩]⟩])[1]? =
      some ⟨"2", [⟨"x", "y", true⟩]⟩ ∧
     (foldChunkSessions (some "1") "llo"
        [⟨"1", [⟨"m", "He", false⟩]⟩, ⟨"2", [⟨"x", "y", true⟩]⟩])[1]? =
      some ⟨"2", [⟨"x", "y", true⟩]⟩) :=
  ⟨rfl,
    (append_and_fold_frame 5 "q" (some "1") "llo"
      [⟨"1", [⟨"m", "He", false⟩]⟩, ⟨"2", [⟨"x", "y", true⟩]⟩] 1
      ⟨"2", [⟨"x", "y", true⟩]⟩ rfl).1 (by decide)⟩

/-! ## Claim C1: the scan of a growth sequence vs. the whole body

The lemmas below characterise the scanner on growths made of plain
characters and culminate in `split_text_field_drops_output`: a
`"text":"..."` field cut across two growth events produces no `onChunk`
output at all, while the same bytes fed as one growth produce the
field's decoded value. -/

lemma plainChar_spec {c : Char} (h : plainChar c = true) :
    c ≠ '"' ∧ c ≠ '\\' ∧ 0x20 ≤ c.toNat := by
  simpa [plainChar, and_assoc] using h

lemma scanChunksF_nil (fuel : Nat) : scanChunksF fuel [] = [] := by
  cases fuel <;> rfl

lemma stripLit_append (l r : List Char) : stripLit l (l ++ r) = some r := by
  induction l with
  | nil => rfl
  | cons c ls ih => simpa [stripLit] using ih

lemma stripLit_mem (l : List Char) : ∀ (s r : List Char),
    stripLit l s = some r → ∀ x ∈ l, x ∈ s := by
  induction l with
  | nil => intro s r _ x hx; cases hx
  | cons c ls ih =>
    intro s r h x hx
    cases s with
    | nil => simp [stripLit] at h
    | cons d ds =>
      by_cases hd : d = c
      · subst hd
        simp only [stripLit, if_pos rfl] at h
        rcases List.mem_cons.mp hx with hxc | hxl
        · subst hxc
          exact List.mem_cons_self _ _
        · exact List.mem_cons_of_mem _ (ih ds r h x hxl)
      · simp [stripLit, hd] at h

lemma matchAt_nil : matchAt [] = none := rfl

lemma matchAt_cons_ne {c : Char} (t : List Char) (h : c ≠ '"') :
    matchAt (c :: t) = none := by
  simp [matchAt, textLit, stripLit, h]

lemma matchValue_noquote (v : List Char) (h : ∀ c ∈ v, c ≠ '"') :
    matchValue v = none := by
  induction v with
  | nil => rfl
  | cons c rest ih =>
    have hc : c ≠ '"' := h c (List.mem_cons_self c rest)
    have hrest : ∀ x ∈ rest, x ≠ '"' := fun x hx => h x (List.mem_cons_of_mem c hx)
    have ihr : matchValue rest = none := ih hrest
    rw [matchValue.eq_4 c rest (fun hq => hc hq)
      (fun rest2 _ hq => hrest '"' (hq ▸ List.mem_cons_self '"' rest2) rfl)]
    rw [ihr]

lemma matchValue_plain (v t : List Char) (h : ∀ c ∈ v, c ≠ '"' ∧ c ≠ '\\') :
    matchValue (v ++ '"' :: t) = some (v, t) := by
  induction v with
  | nil => simp [matchValue]
  | cons c rest ih =>
    have hc := h c (List.mem_cons_self c rest)
    have hrest : ∀ x ∈ rest, x ≠ '"' ∧ x ≠ '\\' :=
      fun x hx => h x (List.mem_cons_of_mem c hx)
    rw [List.cons_append,
      matchValue.eq_4 c (rest ++ '"' :: t) (fun hq => hc.1 hq)
        (fun rest2 hb _ => hc.2 hb)]
    rw [ih hrest]

/-- Unfolding `matchAt` past the canonical field opener. -/
lemma matchAt_openField (x : List Char) : matchAt (openField ++ x) = matchValue x := by
  have h1 : stripLit textLit (openField ++ x) = some (':' :: '"' :: x) := by
    have h2 : openField ++ x = textLit ++ (':' :: '"' :: x) := by
      simp [openField, textLit]
    rw [h2, stripLit_append]
  simp [matchAt, h1, List.dropWhile, isJsWs]

lemma scanChunksF_none (fuel : Nat) : ∀ s : List Char,
    (∀ t, t <:+ s → matchAt t = none) → scanChunksF fuel s = [] := by
  induction fuel with
  | zero => intro s _; rfl
  | succ fuel ih =>
    intro s h
    cases s with
    | nil => rfl
    | cons c rest =>
      have h0 : matchAt (c :: rest) = none := h _ (List.suffix_refl _)
      rw [scanChunksF, h0]
      exact ih rest fun t ht => h t (ht.trans (List.suffix_cons c rest))

lemma suffix_append_cases {t a b : List Char} (h : t <:+ a ++ b) :
    t <:+ b ∨ ∃ u, u <:+ a ∧ t = u ++ b := by
  induction a with
  | nil => exact Or.inl h
  | cons x a' ih =>
    rw [List.cons_append] at h
    rcases List.suffix_cons_iff.mp h with hq | h'
    · exact Or.inr ⟨x :: a', List.suffix_refl _, by rw [hq, List.cons_append]⟩
    · rcases ih h' with h2 | ⟨u, hu, hq⟩
      · exact Or.inl h2
      · exact Or.inr ⟨u, hu.trans (List.suffix_cons x a'), hq⟩

/-- No suffix of the first growth `openField ++ p` matches: the field's
opener is complete but its value never closes within the growth. -/
lemma matchAt_none_head (p : List Char) (hp : ∀ c ∈ p, plainChar c = true) :
    ∀ t, t <:+ (openField ++ p) → matchAt t = none := by
  have hpq : ∀ c ∈ p, c ≠ '"' := fun c hc => (plainChar_spec (hp c hc)).1
  intro t ht
  rcases suffix_append_cases ht with hb | ⟨u, hu, rfl⟩
  · cases t with
    | nil => exact matchAt_nil
    | cons c t' => exact matchAt_cons_ne t' (hpq c (hb.subset (List.mem_cons_self c t')))
  · have htails : u ∈ openField.tails := (List.mem_tails u openField).mpr hu
    have hq : stripLit ['t', 'e', 'x', 't', '"'] p = none := by
      cases hsl : stripLit ['t', 'e', 'x', 't', '"'] p with
      | none => rfl
      | some r =>
        exact absurd rfl (hpq '"' (stripLit_mem _ _ _ hsl '"' (by simp)))
    rw [show openField.tails =
        [['"', 't', 'e', 'x', 't', '"', ':', '"'], ['t', 'e', 'x', 't', '"', ':', '"'],
         ['e', 'x', 't', '"', ':', '"'], ['x', 't', '"', ':', '"'], ['t', '"', ':', '"'],
         ['"', ':', '"'], [':', '"'], ['"'], []] from rfl] at htails
    simp only [List.mem_cons, List.not_mem_nil, or_false] at htails
    rcases htails with rfl | rfl | rfl | rfl | rfl | rfl | rfl | rfl | rfl
    · rw [show (['"', 't', 'e', 'x', 't', '"', ':', '"'] : List Char) = openField from rfl,
        matchAt_openField]
      exact matchValue_noquote p hpq
    · exact matchAt_cons_ne _ (by decide)
    · exact matchAt_cons_ne _ (by decide)
    · exact matchAt_cons_ne _ (by decide)
    · exact matchAt_cons_ne _ (by decide)
    · simp [matchAt, textLit, stripLit]
    · exact matchAt_cons_ne _ (by decide)
    · have h1 : stripLit textLit ('"' :: p) = none := by
        have h2 : stripLit textLit ('"' :: p) = stripLit ['t', 'e', 'x', 't', '"'] p := by
          simp [textLit, stripLit]
        rw [h2, hq]
      simp only [List.cons_append, List.nil_append, matchAt, h1]
    · rw [List.nil_append]
      cases p with
      | nil => exact matchAt_nil
      | cons c p' => exact matchAt_cons_ne p' (hpq c (List.mem_cons_self c p'))

/-- No suffix of the second growth `s ++ ['"']` matches: the re-scan
starts after the already-consumed field opener, so the tail of the
split field never contains `"text"` again. -/
lemma matchAt_none_tail (s : List Char) (hs : ∀ c ∈ s, plainChar c = true) :
    ∀ t, t <:+ (s ++ ['"']) → matchAt t = none := by
  have hsq : ∀ c ∈ s, c ≠ '"' := fun c hc => (plainChar_spec (hs c hc)).1
  have hquote : matchAt ['"'] = none := by
    simp [matchAt, textLit, stripLit]
  intro t ht
  rcases suffix_append_cases ht with hb | ⟨u, hu, rfl⟩
  · rcases List.suffix_cons_iff.mp hb with hq | h'
    · rw [hq]
      exact hquote
    · rw [List.suffix_nil.mp h']
      exact matchAt_nil
  · cases u with
    | nil => exact hquote
    | cons c u' =>
      exact matchAt_cons_ne _ (hsq c (hu.subset (List.mem_cons_self c u')))

lemma jsonDecodeStringF_plain (fuel : Nat) : ∀ v : List Char, v.length ≤ fuel →
    (∀ c ∈ v, plainChar c = true) → jsonDecodeStringF fuel v = some v := by
  induction fuel with
  | zero =>
    intro v hl _
    cases v with
    | nil => rfl
    | cons c rest => simp at hl
  | succ fuel ih =>
    intro v hl hv
    cases v with
    | nil => rfl
    | cons c rest =>
      have hps := plainChar_spec (hv c (List.mem_cons_self c rest))
      rw [jsonDecodeStringF, if_neg hps.1, if_neg hps.2.1,
        if_neg (Nat.not_lt.mpr hps.2.2),
        ih rest (by simpa using Nat.le_of_succ_le_succ hl)
          (fun x hx => hv x (List.mem_cons_of_mem c hx))]
      rfl

lemma jsonDecodeString_plain (v : List Char) (hv : ∀ c ∈ v, plainChar c = true) :
    jsonDecodeString v = some v :=
  jsonDecodeStringF_plain v.length v (Nat.le_refl _) hv

lemma scanChunks_single (L v : List Char) (hm : matchAt L = some (v, [])) :
    scanChunks L = [v] := by
  cases L with
  | nil => rw [matchAt_nil] at hm; cases hm
  | cons c T =>
    show scanChunksF (c :: T).length (c :: T) = [v]
    rw [List.length_cons, scanChunksF, hm]
    simp [scanChunksF_nil]

/-- Claim C1.  The code violates the claim: when a `"text":"..."` field
is split across two growth events at a character inside the quoted
value, the scanner — which always consumes each growth wholesale
(`lastResponseLength = responseText.length`, line 284) and never
re-scans a partial tail — emits nothing on the first growth and nothing
on the second either, so the field's text is dropped, whereas feeding
the whole body as one growth emits exactly the decoded value.  Hence the
concatenation of `onChunk` outputs is not invariant under chunking. -/
theorem split_text_field_drops_output (p s : List Char) (hp : p ≠ []) (hs : s ≠ [])
    (hall : ∀ c ∈ p ++ s, plainChar c = true) :
    emittedJoin [openField ++ p, s ++ ['"']] = [] ∧
    emittedJoin [openField ++ (p ++ s) ++ ['"']] = p ++ s := by
  have hpp : ∀ c ∈ p, plainChar c = true := fun c hc => hall c (List.mem_append_left _ hc)
  have hss : ∀ c ∈ s, plainChar c = true := fun c hc => hall c (List.mem_append_right _ hc)
  constructor
  · have h1 : scanChunks (openField ++ p) = [] :=
      scanChunksF_none _ _ (matchAt_none_head p hpp)
    have h2 : scanChunks (s ++ ['"']) = [] :=
      scanChunksF_none _ _ (matchAt_none_tail s hss)
    simp [emittedJoin, processGrowthL, h1, h2]
  · have hv : matchValue ((p ++ s) ++ '"' :: []) = some (p ++ s, []) :=
      matchValue_plain (p ++ s) []
        (fun c hc => ⟨(plainChar_spec (hall c hc)).1, (plainChar_spec (hall c hc)).2.1⟩)
    have hm : matchAt (openField ++ (p ++ (s ++ ['"']))) = some (p ++ s, []) := by
      rw [matchAt_openField]
      have hassoc : p ++ (s ++ ['"']) = (p ++ s) ++ '"' :: [] := by simp
      rw [hassoc]
      exact hv
    have hscan : scanChunks (openField ++ (p ++ (s ++ ['"']))) = [p ++ s] :=
      scanChunks_single _ _ hm
    have hdec : decodeChunk (p ++ s) = p ++ s := by
      rw [decodeChunk, jsonDecodeString_plain (p ++ s) hall]
      rfl
    simp [emittedJoin, processGrowthL, hscan, hdec]

theorem split_text_field_witness :
    (['h'] : List Char) ≠ [] ∧ (['i'] : List Char) ≠ [] ∧
    (∀ c ∈ (['h'] ++ ['i'] : List Char), plainChar c = true) ∧
    (emittedJoin [openField ++ ['h'], ['i'] ++ ['"']] = [] ∧
     emittedJoin [openField ++ (['h'] ++ ['i']) ++ ['"']] = ['h'] ++ ['i']) :=
  ⟨by decide, by decide, by decide,
    split_text_field_drops_output ['h'] ['i'] (by decide) (by decide) (by decide)⟩

end ChatApp
